import Mathlib

/-!
Shallow embedding of the aggregation pipeline of the security-dashboard
repository (src/unnamed/part_001, function component App): the hourly
activity aggregator (processActivityData), the guard aggregator
(processGuardData), the location aggregator (processLocationCoverage) and
the compliance evaluator (calculateComplianceMetrics).

Modelling conventions:
- CSV cell values are `Option String`: `none` is an absent column
  (JavaScript `undefined`); `some ""` is an empty cell.  JavaScript
  truthiness of such a value is `truthyStr`.
- JavaScript numbers are modelled as exact rationals; `Math.round` is
  `jsRound` (round half toward positive infinity, as in JavaScript).
- A JavaScript NaN produced by an unguarded division or by `getHours` on
  an invalid date is modelled as `none` of an `Option` type.
- JavaScript objects used as string-keyed maps are association lists in
  insertion order; JavaScript `Set`s are duplicate-free lists in
  insertion order.
-/

namespace SecurityDashboard

/-- JavaScript truthiness of a possibly absent string field: `undefined`
and the empty string are falsy, every other string is truthy. -/
def truthyStr : Option String → Bool
  | none => false
  | some s => !(s == "")

/-- JavaScript Math.round: round half toward positive infinity. -/
def jsRound (q : ℚ) : ℤ := ⌊q + 1 / 2⌋

/-- Numeric value of a run of decimal digit characters. -/
def digitsVal (cs : List Char) : ℕ :=
  cs.foldl (fun a c => 10 * a + (c.toNat - 48)) 0

/-- Models the JavaScript parseInt builtin on the strings relevant here:
an optional leading minus sign followed by a run of decimal digits;
`none` models NaN. -/
def jsParseInt (s : String) : Option ℤ :=
  match s.data with
  | '-' :: cs =>
      let ds := cs.takeWhile Char.isDigit
      if ds.isEmpty then none else some (-(digitsVal ds : ℤ))
  | cs =>
      let ds := cs.takeWhile Char.isDigit
      if ds.isEmpty then none else some ((digitsVal ds : ℤ))

/-- Models the JavaScript parseFloat builtin on the strings relevant
here: an optional minus sign, a run of decimal digits, and an optional
fractional part; `none` models NaN. -/
def jsParseFloatCore (cs : List Char) : Option ℚ :=
  let ds := cs.takeWhile Char.isDigit
  if ds.isEmpty then none
  else
    match cs.dropWhile Char.isDigit with
    | '.' :: rest =>
        let fs := rest.takeWhile Char.isDigit
        some ((digitsVal ds : ℚ) + (digitsVal fs : ℚ) / (10 : ℚ) ^ fs.length)
    | _ => some ((digitsVal ds : ℚ))

/-- See jsParseFloatCore. -/
def jsParseFloat (s : String) : Option ℚ :=
  match s.data with
  | '-' :: cs => (jsParseFloatCore cs).map (fun q => -q)
  | cs => jsParseFloatCore cs

/-- Models `new Date(s).getHours()` restricted to the timestamp shape of
the CSV exports, `YYYY-MM-DD HH...` or `YYYY-MM-DDTHH...`: the local
hour of a parseable timestamp, `none` for an invalid date (whose
`getHours()` is NaN). -/
def jsDateHour (s : String) : Option ℕ :=
  match s.data with
  | y1 :: y2 :: y3 :: y4 :: s1 :: m1 :: m2 :: s2 :: d1 :: d2 :: s3 :: h1 :: h2 :: _ =>
      if y1.isDigit && y2.isDigit && y3.isDigit && y4.isDigit && s1 == '-' &&
         m1.isDigit && m2.isDigit && s2 == '-' && d1.isDigit && d2.isDigit &&
         (s3 == ' ' || s3 == 'T') && h1.isDigit && h2.isDigit then
        let h := (h1.toNat - 48) * 10 + (h2.toNat - 48)
        if h ≤ 23 then some h else none
      else none
  | _ => none

/-- Bool test for one list occurring inside another, used for the
JavaScript `String.prototype.includes` call on "Delay". -/
def listHasInfix (pat : List Char) : List Char → Bool
  | [] => pat.isEmpty
  | c :: cs => pat.isPrefixOf (c :: cs) || listHasInfix pat cs

/-- JavaScript `s.includes(pat)`. -/
def strIncludes (s pat : String) : Bool := listHasInfix pat.data s.data

/-- JavaScript `Set.prototype.add`: insertion-ordered, duplicate-free. -/
def setInsert {α : Type} [DecidableEq α] (x : α) (s : List α) : List α :=
  if x ∈ s then s else s ++ [x]

/-- One decoded row of the activity report (papaparse with headers);
only the columns the aggregators read. -/
structure ActivityRecord where
  dateTime : Option String
  timeAccuracy : Option String
  locationAccuracy : Option String
  serviceNumber : Option String
  alert : Option String
  postName : Option String
deriving DecidableEq

/-- One decoded row of the post-basis attendance report. -/
structure AttendanceRecord where
  serviceNumber : Option String
  fullName : Option String
  postName : Option String
  lateHours : Option String
  dutyHours : Option String
  loginDate : Option String
deriving DecidableEq

/-- `curr['Time Accuracy'] === 'On Time' ? 1 : 0`. -/
def actOnTimeFlag (r : ActivityRecord) : ℕ :=
  if r.timeAccuracy = some "On Time" then 1 else 0

/-- `curr['Location Accuracy'] && parseInt(curr['Location Accuracy']) <= 20
? 1 : 0` (NaN compares false); the guard aggregator pass 2 uses the same
condition written with an explicit isNaN check. -/
def actLocAccFlag (r : ActivityRecord) : ℕ :=
  if truthyStr r.locationAccuracy then
    match r.locationAccuracy with
    | some s =>
        match jsParseInt s with
        | some v => if v ≤ 20 then 1 else 0
        | none => 0
    | none => 0
  else 0

/-- `curr['Time Accuracy']?.includes('Delay') ? 1 : 0`. -/
def actDelayedFlag (r : ActivityRecord) : ℕ :=
  match r.timeAccuracy with
  | some s => if strIncludes s "Delay" then 1 else 0
  | none => 0

/-- One hourly bucket of processActivityData; `hour = none` models the
NaN hour that `getHours()` yields on an invalid date. -/
structure HourlyBucket where
  hour : Option ℕ
  total : ℕ
  onTime : ℕ
  locationAccurate : ℕ
  delayed : ℕ
  complianceRate : ℤ
deriving DecidableEq

/-- The bucket pushed for the first record of an hour: complianceRate is
computed here, from this single record, and never recomputed. -/
def newBucket (hour : Option ℕ) (r : ActivityRecord) : HourlyBucket :=
  { hour := hour
    total := 1
    onTime := actOnTimeFlag r
    locationAccurate := actLocAccFlag r
    delayed := actDelayedFlag r
    complianceRate :=
      jsRound ((((actOnTimeFlag r + actLocAccFlag r : ℕ) : ℚ) / (2 * 1)) * 100) }

/-- The in-place update of an existing bucket: the four counters grow,
complianceRate is left untouched (as in the source). -/
def bucketAdd (b : HourlyBucket) (r : ActivityRecord) : HourlyBucket :=
  { b with
      total := b.total + 1
      onTime := b.onTime + actOnTimeFlag r
      locationAccurate := b.locationAccurate + actLocAccFlag r
      delayed := b.delayed + actDelayedFlag r }

/-- JavaScript `===` on the hour values: NaN is equal to nothing,
including itself. -/
def jsHourEq (a b : Option ℕ) : Bool :=
  match a, b with
  | some x, some y => x == y
  | _, _ => false

/-- `acc.find(item => item.hour === hour)` followed by the in-place
update, or `acc.push(...)` when no bucket matches. -/
def addToBuckets (r : ActivityRecord) (hour : Option ℕ) :
    List HourlyBucket → List HourlyBucket
  | [] => [newBucket hour r]
  | b :: bs =>
      if jsHourEq b.hour hour then bucketAdd b r :: bs
      else b :: addToBuckets r hour bs

/-- The hour of a record as the reducer sees it (after the truthiness
guard has passed). -/
def jsDateHourOfField (r : ActivityRecord) : Option ℕ :=
  match r.dateTime with
  | some s => jsDateHour s
  | none => none

/-- One step of the reduce in processActivityData. -/
def activityStep (acc : List HourlyBucket) (r : ActivityRecord) :
    List HourlyBucket :=
  if truthyStr r.dateTime then addToBuckets r (jsDateHourOfField r) acc
  else acc

/-- Sort key relation for `.sort((a, b) => a.hour - b.hour)`.  For two
valid hours this is the numeric order.  A NaN hour makes the comparator
return NaN, for which ECMAScript leaves the order implementation
defined; the model fixes one refinement (NaN-hour buckets first).  No
verified property depends on that choice. -/
def hourLeB : Option ℕ → Option ℕ → Bool
  | none, _ => true
  | some _, none => false
  | some x, some y => x ≤ y

/-- Bucket order as a decidable propositional relation. -/
def bucketLE (a b : HourlyBucket) : Prop := hourLeB a.hour b.hour = true

instance : DecidableRel bucketLE :=
  fun a b => inferInstanceAs (Decidable (_ = true))

instance : IsTotal HourlyBucket bucketLE := by
  constructor
  intro a b
  unfold bucketLE hourLeB
  rcases a.hour with _ | x <;> rcases b.hour with _ | y <;> simp
  omega

instance : IsTrans HourlyBucket bucketLE := by
  constructor
  intro a b c
  unfold bucketLE hourLeB
  rcases a.hour with _ | x <;> rcases b.hour with _ | y <;>
    rcases c.hour with _ | z <;> simp
  omega

/-- processActivityData of src/unnamed/part_001: reduce into hourly
buckets, then sort ascending by hour. -/
def processActivityData (data : List ActivityRecord) : List HourlyBucket :=
  List.insertionSort bucketLE (data.foldl activityStep [])

/-! ### Guard aggregator (processGuardData) -/

/-- The mutable per-guard accumulator of processGuardData, keyed by
`Service Number`. -/
structure GuardEntry where
  id : String
  name : String
  shiftsTotal : ℕ
  shiftsOnTime : ℕ
  shiftsLate : ℕ
  actTotal : ℕ
  actOnTime : ℕ
  actLocAcc : ℕ
  coverage : List (Option String)
  shiftHours : ℚ
deriving DecidableEq

/-- Lookup in a string-keyed JavaScript object modelled as an
insertion-ordered association list. -/
def alFind {β : Type} (k : String) : List (String × β) → Option β
  | [] => none
  | (k2, v) :: rest => if k2 = k then some v else alFind k rest

/-- In-place mutation of the entry under a key (first occurrence). -/
def alUpdate {β : Type} (k : String) (f : β → β) :
    List (String × β) → List (String × β)
  | [] => []
  | (k2, v) :: rest =>
      if k2 = k then (k2, f v) :: rest else (k2, v) :: alUpdate k f rest

/-- The freshly created guard record (all counters zero) before the
shift of the current attendance row is applied. -/
def freshGuard (gid : String) (r : AttendanceRecord) : GuardEntry :=
  { id := gid, name := r.fullName.getD "", shiftsTotal := 0, shiftsOnTime := 0,
    shiftsLate := 0, actTotal := 0, actOnTime := 0, actLocAcc := 0,
    coverage := [], shiftHours := 0 }

/-- `record['Duty Hours']` contribution: parse as float when the field
is truthy; a non-numeric value contributes zero (isNaN guard). -/
def dutyHoursVal (o : Option String) : ℚ :=
  if truthyStr o then
    match o with
    | some s =>
        match jsParseFloat s with
        | some q => q
        | none => 0
    | none => 0
  else 0

/-- The shift bookkeeping applied to a guard record for one attendance
row: total++, onTime or late++, post added to the coverage set, duty
hours accumulated. -/
def attendShiftUpd (r : AttendanceRecord) (e : GuardEntry) : GuardEntry :=
  { e with
      shiftsTotal := e.shiftsTotal + 1
      shiftsOnTime := e.shiftsOnTime + (if r.lateHours = some "On-time" then 1 else 0)
      shiftsLate := e.shiftsLate + (if r.lateHours = some "On-time" then 0 else 1)
      coverage := setInsert r.postName e.coverage
      shiftHours := e.shiftHours + dutyHoursVal r.dutyHours }

/-- Pass 1 of processGuardData, one attendance row: skip unless both
`Full Name` and `Service Number` are truthy; seed the guard record if
absent; then apply the shift bookkeeping. -/
def guardAttStep (m : List (String × GuardEntry)) (r : AttendanceRecord) :
    List (String × GuardEntry) :=
  if truthyStr r.fullName && truthyStr r.serviceNumber then
    let gid := r.serviceNumber.getD ""
    let m2 :=
      match alFind gid m with
      | some _ => m
      | none => m ++ [(gid, freshGuard gid r)]
    alUpdate gid (attendShiftUpd r) m2
  else m

/-- The activity bookkeeping applied to a seeded guard record for one
activity row. -/
def activityUpd (r : ActivityRecord) (e : GuardEntry) : GuardEntry :=
  { e with
      actTotal := e.actTotal + 1
      actOnTime := e.actOnTime + actOnTimeFlag r
      actLocAcc := e.actLocAcc + actLocAccFlag r }

/-- Pass 2 of processGuardData, one activity row: skip unless the guard
identifier is truthy and already has a seeded record. -/
def guardActStep (m : List (String × GuardEntry)) (r : ActivityRecord) :
    List (String × GuardEntry) :=
  if truthyStr r.serviceNumber then
    let gid := r.serviceNumber.getD ""
    match alFind gid m with
    | some _ => alUpdate gid (activityUpd r) m
    | none => m
  else m

/-- `attendanceScore` of the final mapping (weight 30). -/
def attendanceScore (e : GuardEntry) : ℚ :=
  if 0 < e.shiftsTotal then ((e.shiftsOnTime : ℚ) / (e.shiftsTotal : ℚ)) * 30 else 0

/-- `activityScore` of the final mapping (weight 40). -/
def activityScore (e : GuardEntry) : ℚ :=
  if 0 < e.actTotal then
    (((e.actOnTime + e.actLocAcc : ℕ) : ℚ) / (2 * (e.actTotal : ℚ))) * 40
  else 0

/-- `coverageScore = Math.min((coverage.size / 3) * 30, 30)`. -/
def coverageScore (e : GuardEntry) : ℚ :=
  min (((e.coverage.length : ℚ) / 3) * 30) 30

/-- The guard row returned to the presentation layer. -/
structure GuardProfile where
  id : String
  name : String
  shiftsTotal : ℕ
  shiftsOnTime : ℕ
  shiftsLate : ℕ
  actTotal : ℕ
  actOnTime : ℕ
  actLocAcc : ℕ
  coverage : List (Option String)
  shiftHours : ℚ
  attendanceRate : ℤ
  activityComplianceRate : ℤ
  coverageCount : ℕ
  performanceScore : ℤ
deriving DecidableEq

/-- The final mapping of processGuardData over one guard record. -/
def toGuardProfile (e : GuardEntry) : GuardProfile :=
  { id := e.id, name := e.name, shiftsTotal := e.shiftsTotal,
    shiftsOnTime := e.shiftsOnTime, shiftsLate := e.shiftsLate,
    actTotal := e.actTotal, actOnTime := e.actOnTime, actLocAcc := e.actLocAcc,
    coverage := e.coverage, shiftHours := e.shiftHours,
    attendanceRate :=
      if 0 < e.shiftsTotal then
        jsRound (((e.shiftsOnTime : ℚ) / (e.shiftsTotal : ℚ)) * 100)
      else 0,
    activityComplianceRate :=
      if 0 < e.actTotal then
        jsRound ((((e.actOnTime + e.actLocAcc : ℕ) : ℚ) / (2 * (e.actTotal : ℚ))) * 100)
      else 0,
    coverageCount := e.coverage.length,
    performanceScore := jsRound (attendanceScore e + activityScore e + coverageScore e) }

/-- Sort key for `.sort((a, b) => b.metrics.performanceScore -
a.metrics.performanceScore)`: descending by performance score. -/
def guardGE (a b : GuardProfile) : Prop := b.performanceScore ≤ a.performanceScore

instance : DecidableRel guardGE := fun a b => Int.decLe _ _

instance : IsTotal GuardProfile guardGE := ⟨fun a b => le_total b.performanceScore a.performanceScore⟩

instance : IsTrans GuardProfile guardGE := ⟨fun _ _ _ h1 h2 => le_trans h2 h1⟩

/-- processGuardData of src/unnamed/part_001: attendance pass, then
activity pass, then the scoring map, then the descending sort. -/
def processGuardData (activityData : List ActivityRecord)
    (attendanceData : List AttendanceRecord) : List GuardProfile :=
  List.insertionSort guardGE
    (((activityData.foldl guardActStep (attendanceData.foldl guardAttStep [])).map
      (fun kv => toGuardProfile kv.2)))

/-! ### Location aggregator (processLocationCoverage) -/

/-- The mutable per-location accumulator, keyed by `Post Name`. -/
structure LocEntry where
  location : String
  total : ℕ
  covered : ℕ
  onTime : ℕ
  guards : List String
  shiftHours : ℚ
deriving DecidableEq

/-- The freshly created location record. -/
def freshLoc (l : String) : LocEntry :=
  { location := l, total := 0, covered := 0, onTime := 0, guards := [], shiftHours := 0 }

/-- The bookkeeping applied to a location record for one attendance row:
total++ always; covered, guard set, on-time and duty hours only when the
row carries a truthy `Full Name`. -/
def locUpd (r : AttendanceRecord) (e : LocEntry) : LocEntry :=
  let e1 := { e with total := e.total + 1 }
  if truthyStr r.fullName then
    { e1 with
        covered := e1.covered + 1
        guards := setInsert (r.fullName.getD "") e1.guards
        onTime := e1.onTime + (if r.lateHours = some "On-time" then 1 else 0)
        shiftHours := e1.shiftHours + dutyHoursVal r.dutyHours }
  else e1

/-- One step of processLocationCoverage: skip rows without a truthy
`Post Name`; seed the location record if absent; then update it. -/
def locStep (m : List (String × LocEntry)) (r : AttendanceRecord) :
    List (String × LocEntry) :=
  if truthyStr r.postName then
    let l := r.postName.getD ""
    let m2 :=
      match alFind l m with
      | some _ => m
      | none => m ++ [(l, freshLoc l)]
    alUpdate l (locUpd r) m2
  else m

/-- The location row returned to the presentation layer.  coverageRate
is an unguarded division in the source: `none` models the NaN it would
produce on a zero total. -/
structure LocationProfile where
  location : String
  total : ℕ
  covered : ℕ
  onTime : ℕ
  guards : List String
  shiftHours : ℚ
  coverageRate : Option ℤ
  punctualityRate : ℤ
  guardCount : ℕ
  averageShiftHours : ℚ
deriving DecidableEq

/-- The final mapping of processLocationCoverage over one location. -/
def toLocationProfile (e : LocEntry) : LocationProfile :=
  { location := e.location, total := e.total, covered := e.covered,
    onTime := e.onTime, guards := e.guards, shiftHours := e.shiftHours,
    coverageRate :=
      if e.total = 0 then none
      else some (jsRound (((e.covered : ℚ) / (e.total : ℚ)) * 100)),
    punctualityRate :=
      if 0 < e.covered then jsRound (((e.onTime : ℚ) / (e.covered : ℚ)) * 100)
      else 0,
    guardCount := e.guards.length,
    averageShiftHours :=
      if 0 < e.covered then
        ((jsRound ((e.shiftHours / (e.covered : ℚ)) * 10) : ℚ)) / 10
      else 0 }

/-- Sort key for `.sort((a, b) => b.metrics.coverageRate -
a.metrics.coverageRate)`: descending by coverage rate.  A NaN rate makes
the comparator return NaN (implementation-defined order); the model
places such rows first, and no verified property depends on the choice
because the rate is proved to always be defined. -/
def covGeB : Option ℤ → Option ℤ → Bool
  | none, _ => true
  | some _, none => false
  | some x, some y => y ≤ x

/-- Location order as a decidable propositional relation. -/
def locGE (a b : LocationProfile) : Prop := covGeB a.coverageRate b.coverageRate = true

instance : DecidableRel locGE :=
  fun a b => inferInstanceAs (Decidable (_ = true))

instance : IsTotal LocationProfile locGE := by
  constructor
  intro a b
  unfold locGE covGeB
  rcases a.coverageRate with _ | x <;> rcases b.coverageRate with _ | y <;> simp
  omega

instance : IsTrans LocationProfile locGE := by
  constructor
  intro a b c
  unfold locGE covGeB
  rcases a.coverageRate with _ | x <;> rcases b.coverageRate with _ | y <;>
    rcases c.coverageRate with _ | z <;> simp
  omega

/-- processLocationCoverage of src/unnamed/part_001. -/
def processLocationCoverage (data : List AttendanceRecord) : List LocationProfile :=
  List.insertionSort locGE ((data.foldl locStep []).map (fun kv => toLocationProfile kv.2))

/-! ### Compliance evaluator (calculateComplianceMetrics) -/

/-- Per-location compliance flags and score. -/
structure LocationCompliance where
  location : String
  coverageCompliance : ℕ
  punctualityCompliance : ℕ
  staffingCompliance : ℕ
  complianceScore : ℤ
deriving DecidableEq

/-- Per-guard compliance flags and score. -/
structure GuardCompliance where
  name : String
  attendanceCompliance : ℕ
  activityCompliance : ℕ
  coverageCompliance : ℕ
  complianceScore : ℤ
deriving DecidableEq

/-- The result record of calculateComplianceMetrics; overall is the
unguarded `Math.round((passedChecks / totalChecks) * 100)`, whose NaN
on zero checks is modelled as `none`. -/
structure ComplianceMetrics where
  overall : Option ℤ
  byLocation : List LocationCompliance
  byGuard : List GuardCompliance
deriving DecidableEq

/-- JavaScript `x >= k` where x may be NaN (`none`): NaN compares
false. -/
def optGeB (o : Option ℤ) (k : ℤ) : Bool :=
  match o with
  | some v => k ≤ v
  | none => false

/-- The three checks and score of one location. -/
def locComplianceOf (l : LocationProfile) : LocationCompliance :=
  let c1 : ℕ := if optGeB l.coverageRate 95 then 1 else 0
  let c2 : ℕ := if (90 : ℤ) ≤ l.punctualityRate then 1 else 0
  let c3 : ℕ := if 2 ≤ l.guardCount then 1 else 0
  { location := l.location, coverageCompliance := c1, punctualityCompliance := c2,
    staffingCompliance := c3,
    complianceScore := jsRound ((((c1 + c2 + c3 : ℕ) : ℚ) / 3) * 100) }

/-- The three checks and score of one guard. -/
def guardComplianceOf (g : GuardProfile) : GuardCompliance :=
  let c1 : ℕ := if (95 : ℤ) ≤ g.attendanceRate then 1 else 0
  let c2 : ℕ := if (90 : ℤ) ≤ g.activityComplianceRate then 1 else 0
  let c3 : ℕ := if 1 ≤ g.coverageCount then 1 else 0
  { name := g.name, attendanceCompliance := c1, activityCompliance := c2,
    coverageCompliance := c3,
    complianceScore := jsRound ((((c1 + c2 + c3 : ℕ) : ℚ) / 3) * 100) }

/-- Checks passed by one location row. -/
def locChecks (c : LocationCompliance) : ℕ :=
  c.coverageCompliance + c.punctualityCompliance + c.staffingCompliance

/-- Checks passed by one guard row. -/
def guardChecks (c : GuardCompliance) : ℕ :=
  c.attendanceCompliance + c.activityCompliance + c.coverageCompliance

/-- calculateComplianceMetrics of src/unnamed/part_001.  The first
argument (the processed activity buckets) is accepted and ignored, as in
the source.  The running totalChecks / passedChecks accumulation is
expressed as sums over the two mapped lists, which is the same value. -/
def calculateComplianceMetrics (_activities : List HourlyBucket)
    (locations : List LocationProfile) (guards : List GuardProfile) :
    ComplianceMetrics :=
  let byLocation := locations.map locComplianceOf
  let byGuard := guards.map guardComplianceOf
  let totalChecks : ℕ := 3 * locations.length + 3 * guards.length
  let passedChecks : ℕ := (byLocation.map locChecks).sum + (byGuard.map guardChecks).sum
  { overall :=
      if totalChecks = 0 then none
      else some (jsRound (((passedChecks : ℚ) / (totalChecks : ℚ)) * 100)),
    byLocation := byLocation, byGuard := byGuard }

/-! ### Invariant predicates -/

/-- Invariant of a guard record: the shift counters partition, and the
activity counters are bounded by the activity total. -/
def GuardEntryInv (e : GuardEntry) : Prop :=
  e.shiftsOnTime + e.shiftsLate = e.shiftsTotal ∧
    e.actOnTime ≤ e.actTotal ∧ e.actLocAcc ≤ e.actTotal

/-- Invariant of a location record: a record exists only after at least
one row hit its post, and the nested counters are bounded. -/
def LocEntryInv (e : LocEntry) : Prop :=
  1 ≤ e.total ∧ e.covered ≤ e.total ∧ e.onTime ≤ e.covered

/-- A record whose timestamp field is either falsy or parseable (the
inputs on which the spec sentence about hour buckets is accurate). -/
def goodTimestamp (r : ActivityRecord) : Bool :=
  !truthyStr r.dateTime || (jsDateHourOfField r).isSome

/-- Strict comparison of bucket hours; false whenever either side is
the NaN hour. -/
def hourLtB : Option ℕ → Option ℕ → Bool
  | some x, some y => x < y
  | _, _ => false

/-- Where one activity record goes: `none` when it is skipped by the
truthiness guard, `some (some h)` when its timestamp parses to hour h,
`some none` when it is present but unparseable (NaN hour). -/
def contribOf (r : ActivityRecord) : Option (Option ℕ) :=
  if truthyStr r.dateTime then some (jsDateHourOfField r) else none

/-- Total activity count accumulated at a given valid hour across the
bucket list. -/
def totalsAt (bs : List HourlyBucket) (h : ℕ) : ℕ :=
  ((bs.filter (fun b => b.hour == some h)).map HourlyBucket.total).sum

/-- The grouping key a row contributes to in processLocationCoverage. -/
def locKeyOf (r : AttendanceRecord) : Option String :=
  if truthyStr r.postName then some (r.postName.getD "") else none

/-- Number of attendance rows grouped under post name l. -/
def locTotalCnt (data : List AttendanceRecord) (l : String) : ℕ :=
  data.countP (fun r => locKeyOf r == some l)

/-- Number of covered rows (with a truthy guard name) under post l. -/
def locCoveredCnt (data : List AttendanceRecord) (l : String) : ℕ :=
  data.countP (fun r => locKeyOf r == some l && truthyStr r.fullName)

/-- Number of covered on-time rows under post l. -/
def locOnTimeCnt (data : List AttendanceRecord) (l : String) : ℕ :=
  data.countP (fun r =>
    locKeyOf r == some l && truthyStr r.fullName && (r.lateHours == some "On-time"))

/-- Accumulated duty hours of the covered rows under post l. -/
def locHoursSum (data : List AttendanceRecord) (l : String) : ℚ :=
  ((data.filter (fun r => locKeyOf r == some l && truthyStr r.fullName)).map
    (fun r => dutyHoursVal r.dutyHours)).sum

/-- Characterization of the location map after processing data: the
entry under key l, when present, carries exactly the counts of the rows
grouped under l; when absent, no row grouped under l. -/
def LocCharAt (data : List AttendanceRecord) (m : List (String × LocEntry))
    (l : String) : Prop :=
  (∀ e : LocEntry, alFind l m = some e →
    e.location = l ∧ e.total = locTotalCnt data l ∧ e.covered = locCoveredCnt data l ∧
      e.onTime = locOnTimeCnt data l ∧ e.shiftHours = locHoursSum data l)
  ∧ (alFind l m = none → locTotalCnt data l = 0)

/-! ### Concrete example data used by the claims -/

/-- Fully compliant activity record in hour 8. -/
def actHour8Good : ActivityRecord :=
  { dateTime := some "2024-10-19 08:00", timeAccuracy := some "On Time",
    locationAccuracy := some "5", serviceNumber := some "G1", alert := none,
    postName := some "Gate A" }

/-- Fully non-compliant activity record in the same hour 8. -/
def actHour8Bad : ActivityRecord :=
  { dateTime := some "2024-10-19 08:30", timeAccuracy := some "Delayed",
    locationAccuracy := some "100", serviceNumber := some "G1", alert := none,
    postName := some "Gate A" }

/-- Activity record whose timestamp field is present but not a
parseable date. -/
def actBadStamp : ActivityRecord :=
  { dateTime := some "garbage", timeAccuracy := none, locationAccuracy := none,
    serviceNumber := none, alert := none, postName := none }

/-- Activity record in hour 9 (used to exercise the sort). -/
def actHour9 : ActivityRecord :=
  { dateTime := some "2024-10-19 09:10", timeAccuracy := some "On Time",
    locationAccuracy := none, serviceNumber := some "G1", alert := none,
    postName := some "Gate A" }

/-- Attendance row: guard G1 on time at Gate A. -/
def attOnTimeA : AttendanceRecord :=
  { serviceNumber := some "G1", fullName := some "Guard One",
    postName := some "Gate A", lateHours := some "On-time", dutyHours := none,
    loginDate := some "2024-10-19" }

/-- Attendance row: guard G1 late at Gate B. -/
def attLateB : AttendanceRecord :=
  { serviceNumber := some "G1", fullName := some "Guard One",
    postName := some "Gate B", lateHours := some "Late", dutyHours := none,
    loginDate := some "2024-10-19" }

/-- Attendance row at Gate A with a post but no assigned guard. -/
def attNoGuardA : AttendanceRecord :=
  { serviceNumber := none, fullName := none, postName := some "Gate A",
    lateHours := none, dutyHours := none, loginDate := some "2024-10-19" }

/-- Activity row of a guard, G2, that the attendance data never
seeds. -/
def actUnseeded : ActivityRecord :=
  { dateTime := some "2024-10-19 10:00", timeAccuracy := some "On Time",
    locationAccuracy := some "3", serviceNumber := some "G2", alert := none,
    postName := some "Gate A" }

/-- Activity record whose timestamp field is absent (falsy). -/
def actNoStamp : ActivityRecord :=
  { dateTime := none, timeAccuracy := some "On Time", locationAccuracy := none,
    serviceNumber := some "G1", alert := none, postName := some "Gate A" }

/-- Two bucket hours never both carry the same valid hour value. -/
def noSharedHour (a b : HourlyBucket) : Prop :=
  ∀ h : ℕ, a.hour = some h → b.hour ≠ some h

/-- The guard record accumulated from the single row attOnTimeA (the
shiftHours term is the unreduced 0 + 0 the fold builds). -/
def guardEntryW : GuardEntry :=
  { id := "G1", name := "Guard One", shiftsTotal := 1, shiftsOnTime := 1,
    shiftsLate := 0, actTotal := 0, actOnTime := 0, actLocAcc := 0,
    coverage := [some "Gate A"], shiftHours := 0 + 0 }

/-- The guard record accumulated from attOnTimeA then attLateB. -/
def guardEntryW2 : GuardEntry :=
  { id := "G1", name := "Guard One", shiftsTotal := 2, shiftsOnTime := 1,
    shiftsLate := 1, actTotal := 0, actOnTime := 0, actLocAcc := 0,
    coverage := [some "Gate A", some "Gate B"], shiftHours := 0 + 0 + 0 }

/-- The location record accumulated from the single row attOnTimeA. -/
def locEntryW : LocEntry :=
  { location := "Gate A", total := 1, covered := 1, onTime := 1,
    guards := ["Guard One"], shiftHours := 0 + 0 }

/-- The location record accumulated from attOnTimeA then attNoGuardA
(the claim C7 example: one covered row, one post-only row). -/
def locEntryW2 : LocEntry :=
  { location := "Gate A", total := 2, covered := 1, onTime := 1,
    guards := ["Guard One"], shiftHours := 0 + 0 }

/-! ### Helper lemmas -/

theorem jsRound_nonneg {q : ℚ} (h : 0 ≤ q) : 0 ≤ jsRound q := by
  unfold jsRound
  exact Int.le_floor.mpr (by push_cast; linarith)

theorem jsRound_le {q : ℚ} {n : ℤ} (h : q ≤ (n : ℚ)) : jsRound q ≤ n := by
  unfold jsRound
  rw [Int.floor_le_iff]
  push_cast
  linarith

theorem jsRound_ratio_bounds (a b : ℕ) (hab : a ≤ b) (hb : 0 < b) :
    0 ≤ jsRound (((a : ℚ) / (b : ℚ)) * 100) ∧
      jsRound (((a : ℚ) / (b : ℚ)) * 100) ≤ 100 := by
  have hb0 : (0 : ℚ) < (b : ℚ) := by exact_mod_cast hb
  have h1 : (0 : ℚ) ≤ (a : ℚ) / (b : ℚ) := div_nonneg (by positivity) hb0.le
  have h2 : (a : ℚ) / (b : ℚ) ≤ 1 := (div_le_one hb0).mpr (by exact_mod_cast hab)
  exact ⟨jsRound_nonneg (by nlinarith), jsRound_le (n := 100) (by push_cast; nlinarith)⟩

theorem actOnTimeFlag_le_one (r : ActivityRecord) : actOnTimeFlag r ≤ 1 := by
  unfold actOnTimeFlag; split <;> omega

theorem actLocAccFlag_le_one (r : ActivityRecord) : actLocAccFlag r ≤ 1 := by
  unfold actLocAccFlag
  split
  · cases hr : r.locationAccuracy with
    | none => simp
    | some s =>
        dsimp only
        cases hp : jsParseInt s with
        | none => simp [hp]
        | some v =>
            simp only [hp]
            split <;> omega
  · omega

theorem alFind_alUpdate {β : Type} (k l : String) (f : β → β) (m : List (String × β)) :
    alFind l (alUpdate k f m) = if l = k then (alFind l m).map f else alFind l m := by
  induction m with
  | nil => simp [alFind, alUpdate]
  | cons kv rest ih =>
      obtain ⟨k2, v⟩ := kv
      by_cases h2 : k2 = k
      · subst h2
        by_cases hl : k2 = l
        · subst hl
          simp [alFind, alUpdate]
        · have hlk : ¬(l = k2) := fun h => hl h.symm
          simp [alFind, alUpdate, hl, hlk]
      · by_cases hl : k2 = l
        · subst hl
          simp [alFind, alUpdate, h2, fun h : k2 = k => h2 h]
        · simp [alFind, alUpdate, h2, hl, ih]

theorem alFind_append {β : Type} (k : String) (m1 m2 : List (String × β)) :
    alFind k (m1 ++ m2) =
      match alFind k m1 with
      | some v => some v
      | none => alFind k m2 := by
  induction m1 with
  | nil => simp [alFind]
  | cons kv rest ih =>
      obtain ⟨k2, v⟩ := kv
      by_cases h : k2 = k <;> simp [alFind, h, ih]

theorem alUpdate_append_of_find_none {β : Type} (k : String) (f : β → β) (v : β)
    (m : List (String × β)) (h : alFind k m = none) :
    alUpdate k f (m ++ [(k, v)]) = m ++ [(k, f v)] := by
  induction m with
  | nil => simp [alUpdate]
  | cons kv rest ih =>
      obtain ⟨k2, w⟩ := kv
      by_cases h2 : k2 = k
      · subst h2
        simp [alFind] at h
      · simp only [alFind, if_neg h2] at h
        simp [alUpdate, h2, ih h]

theorem mem_alUpdate {β : Type} {k : String} {f : β → β} {m : List (String × β)}
    {kv : String × β} (h : kv ∈ alUpdate k f m) :
    kv ∈ m ∨ ∃ v, (k, v) ∈ m ∧ kv = (k, f v) := by
  induction m with
  | nil => simp [alUpdate] at h
  | cons kw rest ih =>
      obtain ⟨k2, v⟩ := kw
      by_cases h2 : k2 = k
      · subst h2
        simp only [alUpdate, if_pos rfl] at h
        rcases List.mem_cons.mp h with h | h
        · exact Or.inr ⟨v, List.mem_cons_self _ _, h⟩
        · exact Or.inl (List.mem_cons_of_mem _ h)
      · simp only [alUpdate, if_neg h2] at h
        rcases List.mem_cons.mp h with h | h
        · exact Or.inl (h ▸ List.mem_cons_self _ _)
        · rcases ih h with h | ⟨v2, hv2, hkv⟩
          · exact Or.inl (List.mem_cons_of_mem _ h)
          · exact Or.inr ⟨v2, List.mem_cons_of_mem _ hv2, hkv⟩

theorem guardAttStep_skip {m : List (String × GuardEntry)} {r : AttendanceRecord}
    (h : ¬((truthyStr r.fullName && truthyStr r.serviceNumber) = true)) :
    guardAttStep m r = m := by
  unfold guardAttStep
  exact if_neg h

theorem guardAttStep_found {m : List (String × GuardEntry)} {r : AttendanceRecord}
    {e : GuardEntry} (ht : (truthyStr r.fullName && truthyStr r.serviceNumber) = true)
    (hf : alFind (r.serviceNumber.getD "") m = some e) :
    guardAttStep m r = alUpdate (r.serviceNumber.getD "") (attendShiftUpd r) m := by
  unfold guardAttStep
  rw [if_pos ht]
  dsimp only
  rw [hf]

theorem guardAttStep_notfound {m : List (String × GuardEntry)} {r : AttendanceRecord}
    (ht : (truthyStr r.fullName && truthyStr r.serviceNumber) = true)
    (hf : alFind (r.serviceNumber.getD "") m = none) :
    guardAttStep m r =
      m ++ [(r.serviceNumber.getD "",
             attendShiftUpd r (freshGuard (r.serviceNumber.getD "") r))] := by
  unfold guardAttStep
  rw [if_pos ht]
  dsimp only
  rw [hf]
  exact alUpdate_append_of_find_none _ _ _ _ hf

theorem guardActStep_skip {m : List (String × GuardEntry)} {r : ActivityRecord}
    (h : ¬(truthyStr r.serviceNumber = true)) : guardActStep m r = m := by
  unfold guardActStep
  exact if_neg h

theorem guardActStep_found {m : List (String × GuardEntry)} {r : ActivityRecord}
    {e : GuardEntry} (ht : truthyStr r.serviceNumber = true)
    (hf : alFind (r.serviceNumber.getD "") m = some e) :
    guardActStep m r = alUpdate (r.serviceNumber.getD "") (activityUpd r) m := by
  unfold guardActStep
  rw [if_pos ht]
  dsimp only
  rw [hf]

theorem guardActStep_notfound {m : List (String × GuardEntry)} {r : ActivityRecord}
    (ht : truthyStr r.serviceNumber = true)
    (hf : alFind (r.serviceNumber.getD "") m = none) : guardActStep m r = m := by
  unfold guardActStep
  rw [if_pos ht]
  dsimp only
  rw [hf]

theorem locStep_skip {m : List (String × LocEntry)} {r : AttendanceRecord}
    (h : ¬(truthyStr r.postName = true)) : locStep m r = m := by
  unfold locStep
  exact if_neg h

theorem locStep_found {m : List (String × LocEntry)} {r : AttendanceRecord}
    {e : LocEntry} (ht : truthyStr r.postName = true)
    (hf : alFind (r.postName.getD "") m = some e) :
    locStep m r = alUpdate (r.postName.getD "") (locUpd r) m := by
  unfold locStep
  rw [if_pos ht]
  dsimp only
  rw [hf]

theorem locStep_notfound {m : List (String × LocEntry)} {r : AttendanceRecord}
    (ht : truthyStr r.postName = true)
    (hf : alFind (r.postName.getD "") m = none) :
    locStep m r =
      m ++ [(r.postName.getD "", locUpd r (freshLoc (r.postName.getD "")))] := by
  unfold locStep
  rw [if_pos ht]
  dsimp only
  rw [hf]
  exact alUpdate_append_of_find_none _ _ _ _ hf

/-- Every guard record in the accumulated mapping satisfies a property
preserved by the seed-plus-update and by both update functions. -/
theorem guardMap_inv (P : GuardEntry → Prop)
    (hfresh : ∀ gid r, P (attendShiftUpd r (freshGuard gid r)))
    (hupd : ∀ r e, P e → P (attendShiftUpd r e))
    (hact : ∀ r e, P e → P (activityUpd r e))
    (act : List ActivityRecord) (att : List AttendanceRecord) :
    ∀ kv ∈ act.foldl guardActStep (att.foldl guardAttStep []), P kv.2 := by
  have h1 : ∀ (l : List AttendanceRecord) (m : List (String × GuardEntry)),
      (∀ kv ∈ m, P kv.2) → ∀ kv ∈ l.foldl guardAttStep m, P kv.2 := by
    intro l
    induction l with
    | nil => intro m hm; simpa using hm
    | cons a rest ih =>
        intro m hm
        simp only [List.foldl_cons]
        apply ih
        intro kv hkv
        by_cases ht : (truthyStr a.fullName && truthyStr a.serviceNumber) = true
        · cases hf : alFind (a.serviceNumber.getD "") m with
          | some e =>
              rw [guardAttStep_found ht hf] at hkv
              rcases mem_alUpdate hkv with h | ⟨v, hv, rfl⟩
              · exact hm kv h
              · exact hupd _ _ (hm _ hv)
          | none =>
              rw [guardAttStep_notfound ht hf] at hkv
              rcases List.mem_append.mp hkv with h | h
              · exact hm kv h
              · rcases List.mem_singleton.mp h with rfl
                exact hfresh _ _
        · rw [guardAttStep_skip ht] at hkv
          exact hm kv hkv
  have h2 : ∀ (l : List ActivityRecord) (m : List (String × GuardEntry)),
      (∀ kv ∈ m, P kv.2) → ∀ kv ∈ l.foldl guardActStep m, P kv.2 := by
    intro l
    induction l with
    | nil => intro m hm; simpa using hm
    | cons a rest ih =>
        intro m hm
        simp only [List.foldl_cons]
        apply ih
        intro kv hkv
        by_cases ht : truthyStr a.serviceNumber = true
        · cases hf : alFind (a.serviceNumber.getD "") m with
          | some e =>
              rw [guardActStep_found ht hf] at hkv
              rcases mem_alUpdate hkv with h | ⟨v, hv, rfl⟩
              · exact hm kv h
              · exact hact _ _ (hm _ hv)
          | none =>
              rw [guardActStep_notfound ht hf] at hkv
              exact hm kv hkv
        · rw [guardActStep_skip ht] at hkv
          exact hm kv hkv
  exact h2 act _ (h1 att [] (by simp))

/-- Every location record in the accumulated mapping satisfies a
property preserved by the seed-plus-update and by the update. -/
theorem locMap_inv (P : LocEntry → Prop)
    (hfresh : ∀ l r, P (locUpd r (freshLoc l)))
    (hupd : ∀ r e, P e → P (locUpd r e))
    (att : List AttendanceRecord) :
    ∀ kv ∈ att.foldl locStep [], P kv.2 := by
  have h1 : ∀ (l : List AttendanceRecord) (m : List (String × LocEntry)),
      (∀ kv ∈ m, P kv.2) → ∀ kv ∈ l.foldl locStep m, P kv.2 := by
    intro l
    induction l with
    | nil => intro m hm; simpa using hm
    | cons a rest ih =>
        intro m hm
        simp only [List.foldl_cons]
        apply ih
        intro kv hkv
        by_cases ht : truthyStr a.postName = true
        · cases hf : alFind (a.postName.getD "") m with
          | some e =>
              rw [locStep_found ht hf] at hkv
              rcases mem_alUpdate hkv with h | ⟨v, hv, rfl⟩
              · exact hm kv h
              · exact hupd _ _ (hm _ hv)
          | none =>
              rw [locStep_notfound ht hf] at hkv
              rcases List.mem_append.mp hkv with h | h
              · exact hm kv h
              · rcases List.mem_singleton.mp h with rfl
                exact hfresh _ _
        · rw [locStep_skip ht] at hkv
          exact hm kv hkv
  exact h1 att [] (by simp)

/-- Unpack membership in the output of processGuardData. -/
theorem mem_processGuardData {act : List ActivityRecord}
    {att : List AttendanceRecord} {p : GuardProfile}
    (hp : p ∈ processGuardData act att) :
    ∃ kv ∈ act.foldl guardActStep (att.foldl guardAttStep []),
      p = toGuardProfile kv.2 := by
  unfold processGuardData at hp
  rw [List.mem_insertionSort] at hp
  rcases List.mem_map.mp hp with ⟨kv, hkv, rfl⟩
  exact ⟨kv, hkv, rfl⟩

/-- Unpack membership in the output of processLocationCoverage. -/
theorem mem_processLocationCoverage {att : List AttendanceRecord}
    {p : LocationProfile} (hp : p ∈ processLocationCoverage att) :
    ∃ kv ∈ att.foldl locStep [], p = toLocationProfile kv.2 := by
  unfold processLocationCoverage at hp
  rw [List.mem_insertionSort] at hp
  rcases List.mem_map.mp hp with ⟨kv, hkv, rfl⟩
  exact ⟨kv, hkv, rfl⟩

theorem guardEntryInv_fold (act : List ActivityRecord) (att : List AttendanceRecord) :
    ∀ kv ∈ act.foldl guardActStep (att.foldl guardAttStep []), GuardEntryInv kv.2 := by
  apply guardMap_inv
  · intro gid r
    by_cases hl : r.lateHours = some "On-time" <;>
      simp [GuardEntryInv, attendShiftUpd, freshGuard, hl]
  · intro r e h
    obtain ⟨h1, h2, h3⟩ := h
    simp only [GuardEntryInv, attendShiftUpd]
    refine ⟨?_, h2, h3⟩
    split <;> omega
  · intro r e h
    obtain ⟨h1, h2, h3⟩ := h
    have hf1 := actOnTimeFlag_le_one r
    have hf2 := actLocAccFlag_le_one r
    simp only [GuardEntryInv, activityUpd]
    exact ⟨h1, by omega, by omega⟩

theorem locEntryInv_fold (att : List AttendanceRecord) :
    ∀ kv ∈ att.foldl locStep [], LocEntryInv kv.2 := by
  apply locMap_inv
  · intro l r
    by_cases hf : truthyStr r.fullName = true <;>
      by_cases hl : r.lateHours = some "On-time" <;>
        simp [LocEntryInv, locUpd, freshLoc, hf, hl]
  · intro r e h
    obtain ⟨h1, h2, h3⟩ := h
    simp only [LocEntryInv, locUpd]
    split
    · dsimp only
      refine ⟨by omega, by omega, ?_⟩
      split <;> omega
    · dsimp only
      exact ⟨by omega, by omega, by omega⟩

theorem jsRound_ratio_bounds_q (x y : ℚ) (hx : 0 ≤ x) (hxy : x ≤ y) (hy : 0 < y) :
    0 ≤ jsRound ((x / y) * 100) ∧ jsRound ((x / y) * 100) ≤ 100 := by
  have h1 : (0 : ℚ) ≤ x / y := div_nonneg hx hy.le
  have h2 : x / y ≤ 1 := (div_le_one hy).mpr hxy
  exact ⟨jsRound_nonneg (by nlinarith), jsRound_le (n := 100) (by push_cast; nlinarith)⟩

theorem attendanceScore_eq (e : GuardEntry) :
    attendanceScore e =
      if 0 < e.shiftsTotal then 30 * ((e.shiftsOnTime : ℚ) / (e.shiftsTotal : ℚ))
      else 0 := by
  unfold attendanceScore
  split <;> ring

theorem activityScore_eq (e : GuardEntry) :
    activityScore e =
      if 0 < e.actTotal then
        40 * (((e.actOnTime + e.actLocAcc : ℕ) : ℚ) / (2 * (e.actTotal : ℚ)))
      else 0 := by
  unfold activityScore
  split <;> ring

theorem coverageScore_eq (e : GuardEntry) :
    coverageScore e = min 30 (30 * (e.coverage.length : ℚ) / 3) := by
  unfold coverageScore
  rw [min_comm]
  congr 1
  ring

theorem flag_le_one (P : Prop) [Decidable P] : (if P then (1 : ℕ) else 0) ≤ 1 := by
  split <;> omega

theorem attendanceScore_bounds (e : GuardEntry) (h : GuardEntryInv e) :
    0 ≤ attendanceScore e ∧ attendanceScore e ≤ 30 := by
  obtain ⟨h1, _, _⟩ := h
  unfold attendanceScore
  split
  · rename_i hpos
    have ht : (0 : ℚ) < (e.shiftsTotal : ℚ) := by exact_mod_cast hpos
    have hle : (e.shiftsOnTime : ℚ) ≤ (e.shiftsTotal : ℚ) := by
      have : e.shiftsOnTime ≤ e.shiftsTotal := by omega
      exact_mod_cast this
    have hr0 : (0 : ℚ) ≤ (e.shiftsOnTime : ℚ) / (e.shiftsTotal : ℚ) :=
      div_nonneg (by positivity) ht.le
    have hr1 : (e.shiftsOnTime : ℚ) / (e.shiftsTotal : ℚ) ≤ 1 := (div_le_one ht).mpr hle
    constructor <;> nlinarith
  · norm_num

theorem activityScore_bounds (e : GuardEntry) (h : GuardEntryInv e) :
    0 ≤ activityScore e ∧ activityScore e ≤ 40 := by
  obtain ⟨_, h2, h3⟩ := h
  unfold activityScore
  split
  · rename_i hpos
    have ht : (0 : ℚ) < 2 * (e.actTotal : ℚ) := by
      have : (0 : ℚ) < (e.actTotal : ℚ) := by exact_mod_cast hpos
      linarith
    have hle : ((e.actOnTime + e.actLocAcc : ℕ) : ℚ) ≤ 2 * (e.actTotal : ℚ) := by
      have : e.actOnTime + e.actLocAcc ≤ 2 * e.actTotal := by omega
      push_cast
      exact_mod_cast this
    have hr0 : (0 : ℚ) ≤ ((e.actOnTime + e.actLocAcc : ℕ) : ℚ) / (2 * (e.actTotal : ℚ)) :=
      div_nonneg (by positivity) ht.le
    have hr1 : ((e.actOnTime + e.actLocAcc : ℕ) : ℚ) / (2 * (e.actTotal : ℚ)) ≤ 1 :=
      (div_le_one ht).mpr hle
    constructor <;> nlinarith
  · norm_num

theorem coverageScore_bounds (e : GuardEntry) :
    0 ≤ coverageScore e ∧ coverageScore e ≤ 30 := by
  unfold coverageScore
  constructor
  · apply le_min (by positivity) (by norm_num)
  · exact min_le_right _ _

theorem toGuardProfile_rate_bounds (e : GuardEntry) (h : GuardEntryInv e) :
    (0 ≤ (toGuardProfile e).attendanceRate ∧ (toGuardProfile e).attendanceRate ≤ 100) ∧
    (0 ≤ (toGuardProfile e).activityComplianceRate ∧
      (toGuardProfile e).activityComplianceRate ≤ 100) ∧
    (0 ≤ (toGuardProfile e).performanceScore ∧
      (toGuardProfile e).performanceScore ≤ 100) := by
  obtain ⟨h1, h2, h3⟩ := h
  refine ⟨?_, ?_, ?_⟩
  · simp only [toGuardProfile]
    split
    · rename_i hpos
      exact jsRound_ratio_bounds e.shiftsOnTime e.shiftsTotal (by omega) hpos
    · norm_num
  · simp only [toGuardProfile]
    split
    · rename_i hpos
      have ht : (0 : ℚ) < 2 * (e.actTotal : ℚ) := by
        have : (0 : ℚ) < (e.actTotal : ℚ) := by exact_mod_cast hpos
        linarith
      have hle : ((e.actOnTime + e.actLocAcc : ℕ) : ℚ) ≤ 2 * (e.actTotal : ℚ) := by
        have : e.actOnTime + e.actLocAcc ≤ 2 * e.actTotal := by omega
        push_cast
        exact_mod_cast this
      exact jsRound_ratio_bounds_q _ _ (by positivity) hle ht
    · norm_num
  · simp only [toGuardProfile]
    obtain ⟨ha0, ha1⟩ := attendanceScore_bounds e ⟨h1, h2, h3⟩
    obtain ⟨hb0, hb1⟩ := activityScore_bounds e ⟨h1, h2, h3⟩
    obtain ⟨hc0, hc1⟩ := coverageScore_bounds e
    constructor
    · exact jsRound_nonneg (by linarith)
    · exact jsRound_le (n := 100) (by push_cast; linarith)

theorem toLocationProfile_rate_bounds (e : LocEntry) (h : LocEntryInv e) :
    (∃ v, (toLocationProfile e).coverageRate = some v ∧ 0 ≤ v ∧ v ≤ 100) ∧
    0 ≤ (toLocationProfile e).punctualityRate ∧
      (toLocationProfile e).punctualityRate ≤ 100 := by
  obtain ⟨h1, h2, h3⟩ := h
  have hne : ¬(e.total = 0) := by omega
  refine ⟨?_, ?_⟩
  · refine ⟨jsRound (((e.covered : ℚ) / (e.total : ℚ)) * 100), ?_, ?_, ?_⟩
    · simp [toLocationProfile, hne]
    · exact (jsRound_ratio_bounds e.covered e.total h2 (by omega)).1
    · exact (jsRound_ratio_bounds e.covered e.total h2 (by omega)).2
  · simp only [toLocationProfile]
    split
    · rename_i hpos
      exact jsRound_ratio_bounds e.onTime e.covered h3 hpos
    · norm_num

theorem locComplianceOf_checks_le (l : LocationProfile) :
    locChecks (locComplianceOf l) ≤ 3 := by
  unfold locChecks locComplianceOf
  dsimp only
  split <;> split <;> split <;> omega

theorem guardComplianceOf_checks_le (g : GuardProfile) :
    guardChecks (guardComplianceOf g) ≤ 3 := by
  unfold guardChecks guardComplianceOf
  dsimp only
  split <;> split <;> split <;> omega

theorem loc_checks_sum_le (ls : List LocationProfile) :
    ((ls.map locComplianceOf).map locChecks).sum ≤ 3 * ls.length := by
  induction ls with
  | nil => simp
  | cons l rest ih =>
      simp only [List.map_cons, List.sum_cons, List.length_cons]
      have := locComplianceOf_checks_le l
      omega

theorem guard_checks_sum_le (gs : List GuardProfile) :
    ((gs.map guardComplianceOf).map guardChecks).sum ≤ 3 * gs.length := by
  induction gs with
  | nil => simp
  | cons g rest ih =>
      simp only [List.map_cons, List.sum_cons, List.length_cons]
      have := guardComplianceOf_checks_le g
      omega

theorem overall_bounds (acts : List HourlyBucket) (locs : List LocationProfile)
    (guards : List GuardProfile) (h : locs ≠ [] ∨ guards ≠ []) :
    ∃ o, (calculateComplianceMetrics acts locs guards).overall = some o ∧
      0 ≤ o ∧ o ≤ 100 := by
  unfold calculateComplianceMetrics
  dsimp only
  have htc : ¬(3 * locs.length + 3 * guards.length = 0) := by
    rcases h with h | h <;>
      · have := List.length_pos.mpr h
        omega
  rw [if_neg htc]
  refine ⟨_, rfl, ?_⟩
  exact jsRound_ratio_bounds _ _
    (Nat.add_le_add (loc_checks_sum_le locs) (guard_checks_sum_le guards)) (by
      rcases h with h | h <;>
        · have := List.length_pos.mpr h
          omega)

/-! ### Claims -/

/-- C1: the hourly complianceRate is computed only when a bucket is
created and never recomputed, so it reflects the first record of the
hour alone: two records in hour 8 (the first fully compliant, the
second not) leave complianceRate at 100 even though the spec formula
over the final counts (total 2, onTime 1, locationAccurate 1) gives
round(100 * 2 / 4) = 50. -/
theorem compliance_rate_stale :
    processActivityData [actHour8Good, actHour8Bad] =
      [{ hour := some 8, total := 2, onTime := 1, locationAccurate := 1,
         delayed := 1, complianceRate := 100 }]
    ∧ jsRound ((((1 + 1 : ℕ) : ℚ) / (2 * ((2 : ℕ) : ℚ))) * 100) = 50 := by
  constructor
  · have ha : actOnTimeFlag actHour8Good = 1 := rfl
    have hb : actLocAccFlag actHour8Good = 1 := rfl
    have h : processActivityData [actHour8Good, actHour8Bad] =
        [{ hour := some 8, total := 2, onTime := 1, locationAccurate := 1,
           delayed := 1,
           complianceRate :=
             jsRound ((((actOnTimeFlag actHour8Good + actLocAccFlag actHour8Good : ℕ) : ℚ) /
               (2 * 1)) * 100) }] := rfl
    rw [h, ha, hb]
    norm_num [jsRound]
  · norm_num [jsRound]

/-- C2: applied to empty location-profile and guard-profile lists, the
compliance evaluator computes `Math.round((0 / 0) * 100)`, i.e. an
undefined (NaN, here `none`) overall value — not the defined 0 the spec
requires: the division by zero is unguarded in the source. -/
theorem overall_undefined_on_empty :
    (calculateComplianceMetrics [] [] []).overall = none := rfl

/-- C9: every location profile groups at least one attendance row, so
its shift total is at least 1 and the unguarded division in
coverageRate has a nonzero denominator: the rate is always a defined
value. -/
theorem location_total_pos (att : List AttendanceRecord) (p : LocationProfile)
    (hp : p ∈ processLocationCoverage att) :
    1 ≤ p.total ∧ p.coverageRate.isSome = true := by
  rcases mem_processLocationCoverage hp with ⟨kv, hkv, rfl⟩
  obtain ⟨h1, h2, h3⟩ := locEntryInv_fold att kv hkv
  have hne : kv.2.total ≠ 0 := by omega
  constructor
  · simpa [toLocationProfile] using h1
  · simp [toLocationProfile, hne]

/-- Witness for C9: the location profile of one concrete attendance
row has a positive total and a defined coverage rate. -/
theorem location_total_pos_witness :
    1 ≤ (toLocationProfile locEntryW).total ∧
      (toLocationProfile locEntryW).coverageRate.isSome = true :=
  location_total_pos [attOnTimeA] (toLocationProfile locEntryW)
    (by
      have h : processLocationCoverage [attOnTimeA] = [toLocationProfile locEntryW] := rfl
      rw [h]
      exact List.mem_singleton_self _)

/-- C10: in every guard profile the on-time and late shift counters
partition the shift total: each attendance row increments the total and
exactly one of the two. -/
theorem guard_shifts_partition (act : List ActivityRecord)
    (att : List AttendanceRecord) (p : GuardProfile)
    (hp : p ∈ processGuardData act att) :
    p.shiftsOnTime + p.shiftsLate = p.shiftsTotal := by
  rcases mem_processGuardData hp with ⟨kv, hkv, rfl⟩
  obtain ⟨h1, _, _⟩ := guardEntryInv_fold act att kv hkv
  simpa [toGuardProfile] using h1

/-- Witness for C10 at one concrete attendance row. -/
theorem guard_shifts_partition_witness :
    (toGuardProfile guardEntryW).shiftsOnTime + (toGuardProfile guardEntryW).shiftsLate =
      (toGuardProfile guardEntryW).shiftsTotal :=
  guard_shifts_partition [] [attOnTimeA] (toGuardProfile guardEntryW)
    (by
      have h : processGuardData [] [attOnTimeA] = [toGuardProfile guardEntryW] := rfl
      rw [h]
      exact List.mem_singleton_self _)

/-- C4: every guard profile scores
`performanceScore = round(attendanceScore + activityScore + coverageScore)`
with `attendanceScore = 30 * onTimeShifts / totalShifts` (0 on zero
shifts), `activityScore = 40 * (onTimeActivities + locationAccurate) /
(2 * totalActivities)` (0 on zero activities) and `coverageScore =
min(30, 30 * distinctLocationCount / 3)`; in particular, the two-row
attendance example (On-time at Gate A, Late at Gate B, no activity)
yields shifts 2/1/1, two covered locations and performanceScore 35. -/
theorem performance_score_formula :
    (∀ (act : List ActivityRecord) (att : List AttendanceRecord) (p : GuardProfile),
        p ∈ processGuardData act att →
        p.performanceScore =
          jsRound
            ((if 0 < p.shiftsTotal then 30 * ((p.shiftsOnTime : ℚ) / (p.shiftsTotal : ℚ))
              else 0) +
             (if 0 < p.actTotal then
                40 * (((p.actOnTime + p.actLocAcc : ℕ) : ℚ) / (2 * (p.actTotal : ℚ)))
              else 0) +
             min 30 (30 * (p.coverageCount : ℚ) / 3)))
    ∧ processGuardData [] [attOnTimeA, attLateB] = [toGuardProfile guardEntryW2]
    ∧ (toGuardProfile guardEntryW2).shiftsTotal = 2
    ∧ (toGuardProfile guardEntryW2).shiftsOnTime = 1
    ∧ (toGuardProfile guardEntryW2).shiftsLate = 1
    ∧ (toGuardProfile guardEntryW2).coverageCount = 2
    ∧ (toGuardProfile guardEntryW2).performanceScore = 35 := by
  refine ⟨?_, rfl, rfl, rfl, rfl, rfl, ?_⟩
  · intro act att p hp
    rcases mem_processGuardData hp with ⟨kv, hkv, rfl⟩
    simp only [toGuardProfile]
    rw [← attendanceScore_eq, ← activityScore_eq, ← coverageScore_eq]
  · have h0 : (toGuardProfile guardEntryW2).performanceScore =
        jsRound (attendanceScore guardEntryW2 + activityScore guardEntryW2 +
          coverageScore guardEntryW2) := rfl
    have ha : attendanceScore guardEntryW2 = 15 := by
      norm_num [attendanceScore, guardEntryW2]
    have hb : activityScore guardEntryW2 = 0 := by
      norm_num [activityScore, guardEntryW2]
    have hc : coverageScore guardEntryW2 = 20 := by
      norm_num [coverageScore, guardEntryW2, min_eq_left]
    rw [h0, ha, hb, hc]
    norm_num [jsRound]

/-- Witness for C4: the formula instantiated at the one-row example. -/
theorem performance_score_formula_witness :
    (toGuardProfile guardEntryW).performanceScore =
      jsRound
        ((if 0 < (toGuardProfile guardEntryW).shiftsTotal then
            30 * (((toGuardProfile guardEntryW).shiftsOnTime : ℚ) /
              ((toGuardProfile guardEntryW).shiftsTotal : ℚ))
          else 0) +
         (if 0 < (toGuardProfile guardEntryW).actTotal then
            40 * ((((toGuardProfile guardEntryW).actOnTime +
               (toGuardProfile guardEntryW).actLocAcc : ℕ) : ℚ) /
              (2 * ((toGuardProfile guardEntryW).actTotal : ℚ)))
          else 0) +
         min 30 (30 * ((toGuardProfile guardEntryW).coverageCount : ℚ) / 3)) :=
  performance_score_formula.1 [] [attOnTimeA] (toGuardProfile guardEntryW)
    (by
      have h : processGuardData [] [attOnTimeA] = [toGuardProfile guardEntryW] := rfl
      rw [h]
      exact List.mem_singleton_self _)

/-- C3 counterexample: on the empty input (no activity and no
attendance records) the pipeline's overall compliance value is the NaN
of the unguarded 0 / 0 (modelled `none`), not a defined number in
[0, 100] as the claim requires for every input. -/
theorem rates_in_range_counterexample :
    (calculateComplianceMetrics (processActivityData [])
      (processLocationCoverage []) (processGuardData [] [])).overall = none := rfl

/-- C3 (amended): for every input, each location's coverageRate is a
defined value in [0, 100] and its punctualityRate lies in [0, 100];
each guard's attendanceRate, activityComplianceRate and
performanceScore lie in [0, 100]; and the overall compliance value is a
defined number in [0, 100] whenever at least one location or guard
profile exists (on two empty profile lists it is NaN). -/
theorem rates_in_range (act : List ActivityRecord) (att : List AttendanceRecord) :
    (∀ p ∈ processLocationCoverage att,
        (∃ v, p.coverageRate = some v ∧ 0 ≤ v ∧ v ≤ 100) ∧
        0 ≤ p.punctualityRate ∧ p.punctualityRate ≤ 100)
    ∧ (∀ g ∈ processGuardData act att,
        (0 ≤ g.attendanceRate ∧ g.attendanceRate ≤ 100) ∧
        (0 ≤ g.activityComplianceRate ∧ g.activityComplianceRate ≤ 100) ∧
        (0 ≤ g.performanceScore ∧ g.performanceScore ≤ 100))
    ∧ (processLocationCoverage att ≠ [] ∨ processGuardData act att ≠ [] →
        ∃ o, (calculateComplianceMetrics (processActivityData act)
            (processLocationCoverage att) (processGuardData act att)).overall = some o ∧
          0 ≤ o ∧ o ≤ 100) := by
  refine ⟨?_, ?_, ?_⟩
  · intro p hp
    rcases mem_processLocationCoverage hp with ⟨kv, hkv, rfl⟩
    exact toLocationProfile_rate_bounds kv.2 (locEntryInv_fold att kv hkv)
  · intro g hg
    rcases mem_processGuardData hg with ⟨kv, hkv, rfl⟩
    exact toGuardProfile_rate_bounds kv.2 (guardEntryInv_fold act att kv hkv)
  · intro h
    exact overall_bounds _ _ _ h

/-- Witness for C3: the punctuality rate of the profile of one
concrete attendance row is within bounds. -/
theorem rates_in_range_witness :
    0 ≤ (toLocationProfile locEntryW).punctualityRate ∧
      (toLocationProfile locEntryW).punctualityRate ≤ 100 :=
  ((rates_in_range [] [attOnTimeA]).1 (toLocationProfile locEntryW)
    (by
      have h : processLocationCoverage [attOnTimeA] = [toLocationProfile locEntryW] := rfl
      rw [h]
      exact List.mem_singleton_self _)).2

theorem jsHourEq_false {a b : Option ℕ} (h : jsHourEq a b = false) :
    ∀ x : ℕ, a = some x → b ≠ some x := by
  intro x ha hb
  subst ha
  subst hb
  simp [jsHourEq] at h

theorem noSharedHour_symm : ∀ {a b : HourlyBucket}, noSharedHour a b → noSharedHour b a := by
  intro a b h x hb ha
  exact h x ha hb

theorem mem_addToBuckets {r : ActivityRecord} {hr : Option ℕ} :
    ∀ {l : List HourlyBucket}, ∀ x ∈ addToBuckets r hr l,
      (∃ y ∈ l, x.hour = y.hour) ∨ x.hour = hr := by
  intro l
  induction l with
  | nil =>
      intro x hx
      rcases List.mem_singleton.mp hx with rfl
      exact Or.inr rfl
  | cons b bs ih =>
      intro x hx
      unfold addToBuckets at hx
      split at hx
      · rcases List.mem_cons.mp hx with rfl | hx
        · exact Or.inl ⟨b, List.mem_cons_self _ _, rfl⟩
        · exact Or.inl ⟨x, List.mem_cons_of_mem _ hx, rfl⟩
      · rcases List.mem_cons.mp hx with rfl | hx
        · exact Or.inl ⟨x, List.mem_cons_self _ _, rfl⟩
        · rcases ih x hx with ⟨y, hy, hxy⟩ | hxr
          · exact Or.inl ⟨y, List.mem_cons_of_mem _ hy, hxy⟩
          · exact Or.inr hxr

theorem pairwise_addToBuckets {r : ActivityRecord} {hr : Option ℕ} :
    ∀ {l : List HourlyBucket}, l.Pairwise noSharedHour →
      (addToBuckets r hr l).Pairwise noSharedHour := by
  intro l
  induction l with
  | nil =>
      intro _
      simp [addToBuckets]
  | cons b bs ih =>
      intro hl
      rw [List.pairwise_cons] at hl
      obtain ⟨hb, hbs⟩ := hl
      unfold addToBuckets
      split
      · rw [List.pairwise_cons]
        exact ⟨fun x hx => hb x hx, hbs⟩
      · rename_i hne
        rw [List.pairwise_cons]
        refine ⟨?_, ih hbs⟩
        intro x hx
        rcases mem_addToBuckets x hx with ⟨y, hy, hxy⟩ | hxr
        · intro h hbh hxh
          exact hb y hy h hbh (hxy ▸ hxh)
        · intro h hbh hxh
          exact jsHourEq_false (Bool.eq_false_iff.mpr hne) h hbh (hxr ▸ hxh)

theorem pairwise_activityFold (data : List ActivityRecord) :
    ∀ m : List HourlyBucket, m.Pairwise noSharedHour →
      (data.foldl activityStep m).Pairwise noSharedHour := by
  induction data with
  | nil => intro m hm; simpa using hm
  | cons a rest ih =>
      intro m hm
      simp only [List.foldl_cons]
      apply ih
      unfold activityStep
      split
      · exact pairwise_addToBuckets hm
      · exact hm

theorem isSome_activityFold {data : List ActivityRecord}
    (hgood : ∀ r ∈ data, goodTimestamp r = true) :
    ∀ m : List HourlyBucket, (∀ b ∈ m, b.hour.isSome = true) →
      ∀ b ∈ data.foldl activityStep m, b.hour.isSome = true := by
  induction data with
  | nil => intro m hm; simpa using hm
  | cons a rest ih =>
      intro m hm
      simp only [List.foldl_cons]
      apply ih (fun r hr => hgood r (List.mem_cons_of_mem _ hr))
      intro b hb
      unfold activityStep at hb
      split at hb
      · rename_i ht
        rcases mem_addToBuckets b hb with ⟨y, hy, hby⟩ | hbr
        · exact hby ▸ hm y hy
        · have := hgood a (List.mem_cons_self _ _)
          unfold goodTimestamp at this
          rw [ht] at this
          simpa [hbr] using this
      · exact hm b hb

/-- C5 counterexample: two records with a present but unparseable
timestamp produce two buckets that both carry the NaN hour — the output
has duplicate hours (and hence is not strictly ascending). -/
theorem buckets_sorted_counterexample :
    (processActivityData [actBadStamp, actBadStamp]).map HourlyBucket.hour = [none, none]
    ∧ ¬ ((processActivityData [actBadStamp, actBadStamp]).map HourlyBucket.hour).Nodup := by
  constructor
  · decide
  · decide

/-- C5 (amended): for every input whose records each have a falsy or
parseable timestamp field, the hourly buckets are strictly ascending in
their hour, with no duplicate hours; records with a present but
unparseable timestamp instead each create their own NaN-hour bucket,
which breaks the order (see the counterexample). -/
theorem buckets_sorted (data : List ActivityRecord)
    (h : ∀ r ∈ data, goodTimestamp r = true) :
    (processActivityData data).Pairwise (fun a b => hourLtB a.hour b.hour = true) := by
  unfold processActivityData
  have hperm := List.perm_insertionSort bucketLE (data.foldl activityStep [])
  have hsorted : (List.insertionSort bucketLE (data.foldl activityStep [])).Pairwise bucketLE :=
    List.sorted_insertionSort bucketLE (data.foldl activityStep [])
  have hpw : (data.foldl activityStep []).Pairwise noSharedHour :=
    pairwise_activityFold data [] (by simp)
  have hpw2 : (List.insertionSort bucketLE (data.foldl activityStep [])).Pairwise noSharedHour :=
    (hperm.pairwise_iff (fun hab => noSharedHour_symm hab)).mpr hpw
  have hsome : ∀ b ∈ List.insertionSort bucketLE (data.foldl activityStep []),
      b.hour.isSome = true := by
    intro b hb
    exact isSome_activityFold h [] (by simp) b (hperm.mem_iff.mp hb)
  refine (hsorted.and hpw2).imp_of_mem ?_
  intro a b ha hb hab
  obtain ⟨h1, h2⟩ := hab
  rcases Option.isSome_iff_exists.mp (hsome a ha) with ⟨x, hx⟩
  rcases Option.isSome_iff_exists.mp (hsome b hb) with ⟨y, hy⟩
  have hle : x ≤ y := by
    have := h1
    unfold bucketLE at this
    rw [hx, hy] at this
    simpa [hourLeB] using this
  have hne : x ≠ y := fun hxy => h2 x hx (hy.trans (by rw [hxy]))
  rw [hx, hy]
  simp [hourLtB]
  omega

/-- Witness for C5: two parseable-timestamp records in hours 9 and 8
come out strictly ascending. -/
theorem buckets_sorted_witness :
    (processActivityData [actHour9, actHour8Good]).Pairwise
      (fun a b => hourLtB a.hour b.hour = true) :=
  buckets_sorted [actHour9, actHour8Good] (by decide)

theorem jsHourEq_true {a b : Option ℕ} (h : jsHourEq a b = true) :
    ∃ x, a = some x ∧ b = some x := by
  cases a with
  | none => simp [jsHourEq] at h
  | some x =>
      cases b with
      | none => simp [jsHourEq] at h
      | some y =>
          simp [jsHourEq] at h
          exact ⟨x, rfl, by rw [h]⟩

theorem totalsAt_nil (h : ℕ) : totalsAt [] h = 0 := rfl

theorem totalsAt_cons (b : HourlyBucket) (bs : List HourlyBucket) (h : ℕ) :
    totalsAt (b :: bs) h = (if b.hour = some h then b.total else 0) + totalsAt bs h := by
  unfold totalsAt
  rw [List.filter_cons]
  by_cases hb : b.hour = some h
  · simp [hb]
  · simp [hb]

theorem totalsAt_addToBuckets (r : ActivityRecord) (hr : Option ℕ) (h : ℕ) :
    ∀ l : List HourlyBucket,
      totalsAt (addToBuckets r hr l) h = totalsAt l h + (if hr = some h then 1 else 0) := by
  intro l
  induction l with
  | nil =>
      unfold addToBuckets
      rw [totalsAt_cons]
      by_cases hh : hr = some h <;> simp [newBucket, hh, totalsAt_nil]
  | cons b bs ih =>
      unfold addToBuckets
      split
      · rename_i heq
        obtain ⟨x, hbx, hrx⟩ := jsHourEq_true heq
        rw [totalsAt_cons, totalsAt_cons]
        have hba : (bucketAdd b r).hour = b.hour := rfl
        have hbt : (bucketAdd b r).total = b.total + 1 := rfl
        rw [hba, hbt, hbx, hrx]
        by_cases hxh : x = h
        · subst hxh
          simp
          omega
        · simp [hxh]
      · rename_i hne
        rw [totalsAt_cons, totalsAt_cons, ih]
        omega

theorem nanCount_addToBuckets (r : ActivityRecord) (hr : Option ℕ) :
    ∀ l : List HourlyBucket,
      (addToBuckets r hr l).countP (fun b => b.hour.isNone) =
        l.countP (fun b => b.hour.isNone) + (if hr = none then 1 else 0) := by
  intro l
  induction l with
  | nil =>
      cases hr <;> simp [addToBuckets, newBucket, List.countP_cons]
  | cons b bs ih =>
      unfold addToBuckets
      split
      · rename_i heq
        obtain ⟨x, hbx, hrx⟩ := jsHourEq_true heq
        subst hrx
        rw [List.countP_cons, List.countP_cons]
        have hba : (bucketAdd b r).hour = b.hour := rfl
        rw [hba]
        simp
      · rename_i hne
        rw [List.countP_cons, List.countP_cons, ih]
        omega

theorem totalsAt_activityStep (m : List HourlyBucket) (r : ActivityRecord) (h : ℕ) :
    totalsAt (activityStep m r) h =
      totalsAt m h + (if contribOf r = some (some h) then 1 else 0) := by
  unfold activityStep contribOf
  by_cases ht : truthyStr r.dateTime = true
  · rw [if_pos ht, if_pos ht, totalsAt_addToBuckets]
    congr 1
    by_cases hh : jsDateHourOfField r = some h <;> simp [hh]
  · rw [if_neg ht, if_neg ht]
    simp

theorem nanCount_activityStep (m : List HourlyBucket) (r : ActivityRecord) :
    (activityStep m r).countP (fun b => b.hour.isNone) =
      m.countP (fun b => b.hour.isNone) + (if contribOf r = some none then 1 else 0) := by
  unfold activityStep contribOf
  by_cases ht : truthyStr r.dateTime = true
  · rw [if_pos ht, if_pos ht, nanCount_addToBuckets]
    congr 1
    by_cases hh : jsDateHourOfField r = none <;> simp [hh]
  · rw [if_neg ht, if_neg ht]
    simp

theorem totalsAt_fold (data : List ActivityRecord) :
    ∀ (m : List HourlyBucket) (h : ℕ),
      totalsAt (data.foldl activityStep m) h =
        totalsAt m h + data.countP (fun r => contribOf r == some (some h)) := by
  induction data with
  | nil => simp
  | cons a rest ih =>
      intro m h
      simp only [List.foldl_cons]
      rw [ih, totalsAt_activityStep, List.countP_cons]
      have hi : (if contribOf a = some (some h) then (1 : ℕ) else 0) =
          (if (contribOf a == some (some h)) = true then 1 else 0) := by
        by_cases hc : contribOf a = some (some h) <;> simp [hc]
      rw [hi]
      omega

theorem nanCount_fold (data : List ActivityRecord) :
    ∀ m : List HourlyBucket,
      (data.foldl activityStep m).countP (fun b => b.hour.isNone) =
        m.countP (fun b => b.hour.isNone) +
          data.countP (fun r => contribOf r == some none) := by
  induction data with
  | nil => simp
  | cons a rest ih =>
      intro m
      simp only [List.foldl_cons]
      rw [ih, nanCount_activityStep, List.countP_cons]
      have hi : (if contribOf a = some none then (1 : ℕ) else 0) =
          (if (contribOf a == some none) = true then 1 else 0) := by
        by_cases hc : contribOf a = some none <;> simp [hc]
      rw [hi]
      omega

theorem totalsAt_perm {l1 l2 : List HourlyBucket} (hp : l1.Perm l2) (h : ℕ) :
    totalsAt l1 h = totalsAt l2 h := by
  unfold totalsAt
  exact ((hp.filter _).map _).sum_eq

/-- C6 counterexample: a record with the present but unparseable
timestamp "garbage" is not skipped: it contributes a (NaN-hour) bucket,
while the claim says such a record contributes to no bucket at all. -/
theorem record_bucket_contribution_counterexample :
    truthyStr actBadStamp.dateTime = true ∧ jsDateHour "garbage" = none ∧
      (processActivityData [actBadStamp]).length = 1 := by
  refine ⟨rfl, rfl, ?_⟩
  decide

/-- C6 (amended): a record whose timestamp field is missing or empty
(falsy) contributes to no bucket; every record with a parseable
timestamp contributes to exactly the bucket of its hour (for each hour
h, the accumulated total at h counts exactly the records whose
timestamp parses to h); and a record with a present but unparseable
timestamp is NOT skipped: each one contributes its own NaN-hour
bucket. -/
theorem record_bucket_contribution :
    (∀ (l1 l2 : List ActivityRecord) (r : ActivityRecord),
        truthyStr r.dateTime = false →
        processActivityData (l1 ++ r :: l2) = processActivityData (l1 ++ l2))
    ∧ (∀ (data : List ActivityRecord) (h : ℕ),
        totalsAt (processActivityData data) h =
          data.countP (fun r => contribOf r == some (some h)))
    ∧ (∀ data : List ActivityRecord,
        (processActivityData data).countP (fun b => b.hour.isNone) =
          data.countP (fun r => contribOf r == some none)) := by
  refine ⟨?_, ?_, ?_⟩
  · intro l1 l2 r hfalsy
    unfold processActivityData
    congr 1
    rw [List.foldl_append, List.foldl_append, List.foldl_cons]
    congr 1
    unfold activityStep
    rw [if_neg]
    simp [hfalsy]
  · intro data h
    have hperm := List.perm_insertionSort bucketLE (data.foldl activityStep [])
    rw [show processActivityData data =
          List.insertionSort bucketLE (data.foldl activityStep []) from rfl,
        totalsAt_perm hperm, totalsAt_fold]
    simp [totalsAt_nil]
  · intro data
    have hperm := List.perm_insertionSort bucketLE (data.foldl activityStep [])
    rw [show processActivityData data =
          List.insertionSort bucketLE (data.foldl activityStep []) from rfl,
        hperm.countP_eq, nanCount_fold]
    simp

/-- Witness for C6: a falsy-timestamp record inserted between two
others changes nothing. -/
theorem record_bucket_contribution_witness :
    processActivityData [actHour8Good, actNoStamp, actHour9] =
      processActivityData [actHour8Good, actHour9] :=
  record_bucket_contribution.1 [actHour8Good] [actHour9] actNoStamp rfl

theorem truthy_getD_inj {o1 o2 : Option String} (h1 : truthyStr o1 = true)
    (h2 : truthyStr o2 = true) (h : o1.getD "" = o2.getD "") : o1 = o2 := by
  cases o1 with
  | none => simp [truthyStr] at h1
  | some s1 =>
      cases o2 with
      | none => simp [truthyStr] at h2
      | some s2 => simpa using h

theorem alFind_guardAttStep_other {m : List (String × GuardEntry)}
    {a : AttendanceRecord} {g : String}
    (h : ¬(truthyStr a.fullName = true ∧ truthyStr a.serviceNumber = true ∧
      a.serviceNumber.getD "" = g)) :
    alFind g (guardAttStep m a) = alFind g m := by
  by_cases ht : (truthyStr a.fullName && truthyStr a.serviceNumber) = true
  · have hcomp := ht
    rw [Bool.and_eq_true] at hcomp
    have hg : a.serviceNumber.getD "" ≠ g := fun hgg => h ⟨hcomp.1, hcomp.2, hgg⟩
    cases hf : alFind (a.serviceNumber.getD "") m with
    | some e =>
        rw [guardAttStep_found ht hf, alFind_alUpdate]
        rw [if_neg (fun hh => hg hh.symm)]
    | none =>
        rw [guardAttStep_notfound ht hf, alFind_append]
        cases hfg : alFind g m with
        | some v => rfl
        | none => simp [alFind, hg]
  · rw [guardAttStep_skip ht]

theorem alFind_none_attFold {g : String} :
    ∀ (att : List AttendanceRecord) (m : List (String × GuardEntry)),
      (∀ a ∈ att, ¬(truthyStr a.fullName = true ∧ truthyStr a.serviceNumber = true ∧
        a.serviceNumber.getD "" = g)) →
      alFind g m = none → alFind g (att.foldl guardAttStep m) = none := by
  intro att
  induction att with
  | nil => intro m _ hm; simpa using hm
  | cons a rest ih =>
      intro m hall hm
      simp only [List.foldl_cons]
      exact ih _ (fun b hb => hall b (List.mem_cons_of_mem _ hb))
        ((alFind_guardAttStep_other (hall a (List.mem_cons_self _ _))).trans hm)

theorem alFind_none_guardActStep {m : List (String × GuardEntry)}
    {r : ActivityRecord} {g : String} (h : alFind g m = none) :
    alFind g (guardActStep m r) = none := by
  by_cases ht : truthyStr r.serviceNumber = true
  · cases hf : alFind (r.serviceNumber.getD "") m with
    | some e =>
        rw [guardActStep_found ht hf, alFind_alUpdate]
        by_cases hgg : g = r.serviceNumber.getD ""
        · rw [hgg] at h
          rw [h] at hf
          cases hf
        · rw [if_neg hgg]
          exact h
    | none => rw [guardActStep_notfound ht hf]; exact h
  · rw [guardActStep_skip ht]; exact h

theorem alFind_none_actFold {g : String} :
    ∀ (act : List ActivityRecord) (m : List (String × GuardEntry)),
      alFind g m = none → alFind g (act.foldl guardActStep m) = none := by
  intro act
  induction act with
  | nil => intro m hm; simpa using hm
  | cons a rest ih =>
      intro m hm
      simp only [List.foldl_cons]
      exact ih _ (alFind_none_guardActStep hm)

/-- C8: an activity record whose guard identifier was not seeded by the
attendance pass contributes nothing: inserting it anywhere in the
activity list leaves the entire output of processGuardData unchanged. -/
theorem unseeded_guard_invisible (act1 act2 : List ActivityRecord)
    (att : List AttendanceRecord) (r : ActivityRecord)
    (h : truthyStr r.serviceNumber = false ∨
      ∀ a ∈ att, ¬(truthyStr a.fullName = true ∧ truthyStr a.serviceNumber = true ∧
        a.serviceNumber = r.serviceNumber)) :
    processGuardData (act1 ++ r :: act2) att = processGuardData (act1 ++ act2) att := by
  unfold processGuardData
  congr 2
  rw [List.foldl_append, List.foldl_append, List.foldl_cons]
  congr 1
  rcases h with h | h
  · exact guardActStep_skip (by simp [h])
  · have hnone : alFind (r.serviceNumber.getD "") (att.foldl guardAttStep []) = none := by
      apply alFind_none_attFold att [] ?_ rfl
      intro a ha hcon
      obtain ⟨ha1, ha2, ha3⟩ := hcon
      by_cases htr : truthyStr r.serviceNumber = true
      · exact h a ha ⟨ha1, ha2, truthy_getD_inj ha2 htr ha3⟩
      · have : truthyStr r.serviceNumber = false := by
          cases hb : truthyStr r.serviceNumber
          · rfl
          · exact absurd hb htr
        cases hrs : r.serviceNumber with
        | none =>
            rw [hrs] at ha3
            cases hsa : a.serviceNumber with
            | none => rw [hsa] at ha2; simp [truthyStr] at ha2
            | some s =>
                rw [hsa] at ha2 ha3
                simp [truthyStr] at ha2
                simp at ha3
                exact ha2 ha3
        | some s =>
            rw [hrs] at this
            simp [truthyStr] at this
            rw [hrs] at ha3
            cases hsa : a.serviceNumber with
            | none => rw [hsa] at ha2; simp [truthyStr] at ha2
            | some s2 =>
                rw [hsa] at ha2 ha3
                simp [truthyStr] at ha2
                simp at ha3
                exact ha2 (ha3.trans this)
    by_cases htr : truthyStr r.serviceNumber = true
    · exact guardActStep_notfound htr (alFind_none_actFold act1 _ hnone)
    · exact guardActStep_skip htr

/-- Witness for C8: the activity record of unseeded guard G2 changes
nothing when added to the activity list. -/
theorem unseeded_guard_invisible_witness :
    processGuardData [actUnseeded] [attOnTimeA] = processGuardData [] [attOnTimeA] :=
  unseeded_guard_invisible [] [] [attOnTimeA] actUnseeded
    (Or.inr (by decide))

theorem locCnt_single_other {r : AttendanceRecord} {l : String}
    (h : ¬(locKeyOf r = some l)) :
    locTotalCnt [r] l = 0 ∧ locCoveredCnt [r] l = 0 ∧ locOnTimeCnt [r] l = 0 ∧
      locHoursSum [r] l = 0 := by
  refine ⟨?_, ?_, ?_, ?_⟩ <;>
    simp [locTotalCnt, locCoveredCnt, locOnTimeCnt, locHoursSum, List.countP_cons, h]

theorem locCnt_single_match {r : AttendanceRecord} {l : String}
    (h : locKeyOf r = some l) :
    locTotalCnt [r] l = 1 ∧
    locCoveredCnt [r] l = (if truthyStr r.fullName then 1 else 0) ∧
    locOnTimeCnt [r] l =
      (if truthyStr r.fullName then (if r.lateHours = some "On-time" then 1 else 0)
       else 0) ∧
    locHoursSum [r] l = (if truthyStr r.fullName then dutyHoursVal r.dutyHours else 0) := by
  by_cases hfn : truthyStr r.fullName = true
  · by_cases hlt : r.lateHours = some "On-time" <;>
      refine ⟨?_, ?_, ?_, ?_⟩ <;>
        simp [locTotalCnt, locCoveredCnt, locOnTimeCnt, locHoursSum,
          List.countP_cons, h, hfn, hlt]
  · have hfn2 : truthyStr r.fullName = false := by
      cases hb : truthyStr r.fullName
      · rfl
      · exact absurd hb hfn
    refine ⟨?_, ?_, ?_, ?_⟩ <;>
      simp [locTotalCnt, locCoveredCnt, locOnTimeCnt, locHoursSum,
        List.countP_cons, h, hfn2]

theorem locCnt_append_single (data : List AttendanceRecord) (r : AttendanceRecord)
    (l : String) :
    locTotalCnt (data ++ [r]) l = locTotalCnt data l + locTotalCnt [r] l ∧
    locCoveredCnt (data ++ [r]) l = locCoveredCnt data l + locCoveredCnt [r] l ∧
    locOnTimeCnt (data ++ [r]) l = locOnTimeCnt data l + locOnTimeCnt [r] l ∧
    locHoursSum (data ++ [r]) l = locHoursSum data l + locHoursSum [r] l := by
  refine ⟨?_, ?_, ?_, ?_⟩ <;>
    simp [locTotalCnt, locCoveredCnt, locOnTimeCnt, locHoursSum,
      List.countP_append, List.filter_append]

theorem alFind_locStep_other {m : List (String × LocEntry)} {r : AttendanceRecord}
    {l : String} (hp : truthyStr r.postName = true) (hl : ¬(l = r.postName.getD "")) :
    alFind l (locStep m r) = alFind l m := by
  cases hf : alFind (r.postName.getD "") m with
  | some e => rw [locStep_found hp hf, alFind_alUpdate, if_neg hl]
  | none =>
      rw [locStep_notfound hp hf, alFind_append]
      cases hfl : alFind l m with
      | some v => rfl
      | none =>
          simp only [alFind]
          rw [if_neg (fun h => hl h.symm)]

theorem locCharAt_step (data : List AttendanceRecord) (r : AttendanceRecord)
    (m : List (String × LocEntry)) (hchar : ∀ l : String, LocCharAt data m l) :
    ∀ l : String, LocCharAt (data ++ [r]) (locStep m r) l := by
  intro l
  obtain ⟨hca, hcn⟩ := hchar l
  by_cases hp : truthyStr r.postName = true
  · have hkey : locKeyOf r = some (r.postName.getD "") := by simp [locKeyOf, hp]
    by_cases hl : l = r.postName.getD ""
    · subst hl
      obtain ⟨hc1, hc2, hc3, hc4⟩ := locCnt_append_single data r (r.postName.getD "")
      obtain ⟨hs1, hs2, hs3, hs4⟩ := locCnt_single_match hkey
      cases hf : alFind (r.postName.getD "") m with
      | some e0 =>
          obtain ⟨he0, h1, h2, h3, h4⟩ := hca e0 hf
          constructor
          · intro e hfe
            rw [locStep_found hp hf, alFind_alUpdate, if_pos rfl, hf] at hfe
            simp only [Option.map_some'] at hfe
            cases hfe
            unfold locUpd
            dsimp only
            rw [hc1, hc2, hc3, hc4, hs1, hs2, hs3, hs4]
            by_cases hfn : truthyStr r.fullName = true
            · simp only [if_pos hfn]
              refine ⟨he0, by omega, by omega, ?_, by rw [h4]⟩
              by_cases hlt : r.lateHours = some "On-time"
              · simp only [if_pos hlt]
                omega
              · simp only [if_neg hlt]
                omega
            · simp only [if_neg hfn]
              exact ⟨he0, by omega, by omega, by omega, by rw [h4]; ring⟩
          · intro hfe
            rw [locStep_found hp hf, alFind_alUpdate, if_pos rfl, hf] at hfe
            simp at hfe
      | none =>
          have h0 : locTotalCnt data (r.postName.getD "") = 0 := hcn hf
          have hall : ∀ x ∈ data, ¬((locKeyOf x == some (r.postName.getD "")) = true) :=
            List.countP_eq_zero.mp h0
          have h0c : locCoveredCnt data (r.postName.getD "") = 0 := by
            apply List.countP_eq_zero.mpr
            intro x hx
            simp only [Bool.and_eq_true, not_and]
            intro hk
            exact absurd hk (hall x hx)
          have h0t : locOnTimeCnt data (r.postName.getD "") = 0 := by
            apply List.countP_eq_zero.mpr
            intro x hx
            simp only [Bool.and_eq_true, not_and]
            intro hk
            exact absurd hk.1 (hall x hx)
          have h0h : locHoursSum data (r.postName.getD "") = 0 := by
            unfold locHoursSum
            rw [List.filter_eq_nil_iff.mpr]
            · rfl
            · intro x hx
              simp only [Bool.and_eq_true, not_and]
              intro hk
              exact absurd hk (hall x hx)
          constructor
          · intro e hfe
            rw [locStep_notfound hp hf, alFind_append, hf] at hfe
            simp only [alFind, if_pos rfl] at hfe
            cases hfe
            unfold locUpd freshLoc
            dsimp only
            rw [hc1, hc2, hc3, hc4, hs1, hs2, hs3, hs4, h0, h0c, h0t, h0h]
            by_cases hfn : truthyStr r.fullName = true
            · simp only [if_pos hfn]
              exact ⟨trivial, trivial, trivial, trivial, trivial⟩
            · simp only [if_neg hfn]
              refine ⟨trivial, trivial, trivial, trivial, ?_⟩
              ring
          · intro hfe
            rw [locStep_notfound hp hf, alFind_append, hf] at hfe
            simp [alFind] at hfe
    · have hother : ¬(locKeyOf r = some l) := by
        rw [hkey]
        intro hc
        exact hl (Option.some.injEq _ _ ▸ hc).symm
      obtain ⟨hc1, hc2, hc3, hc4⟩ := locCnt_append_single data r l
      obtain ⟨hz1, hz2, hz3, hz4⟩ := locCnt_single_other hother
      constructor
      · intro e hfe
        rw [alFind_locStep_other hp hl] at hfe
        obtain ⟨he, h1, h2, h3, h4⟩ := hca e hfe
        rw [hc1, hc2, hc3, hc4, hz1, hz2, hz3, hz4]
        exact ⟨he, by omega, by omega, by omega, by rw [h4]; ring⟩
      · intro hfe
        rw [alFind_locStep_other hp hl] at hfe
        rw [hc1, hz1, hcn hfe]
  · have hother : ¬(locKeyOf r = some l) := by simp [locKeyOf, hp]
    rw [locStep_skip hp]
    obtain ⟨hc1, hc2, hc3, hc4⟩ := locCnt_append_single data r l
    obtain ⟨hz1, hz2, hz3, hz4⟩ := locCnt_single_other hother
    constructor
    · intro e hfe
      obtain ⟨he, h1, h2, h3, h4⟩ := hca e hfe
      rw [hc1, hc2, hc3, hc4, hz1, hz2, hz3, hz4]
      exact ⟨he, by omega, by omega, by omega, by rw [h4]; ring⟩
    · intro hfe
      rw [hc1, hz1, hcn hfe]

theorem locFold_char (att : List AttendanceRecord) :
    ∀ l : String, LocCharAt att (att.foldl locStep []) l := by
  induction att using List.reverseRecOn with
  | nil =>
      intro l
      exact ⟨fun e he => by simp [alFind] at he, fun _ => rfl⟩
  | append_singleton xs r ih =>
      simp only [List.foldl_append, List.foldl_cons, List.foldl_nil]
      exact locCharAt_step xs r _ ih

theorem alUpdate_map_fst {β : Type} (k : String) (f : β → β) :
    ∀ m : List (String × β), (alUpdate k f m).map Prod.fst = m.map Prod.fst := by
  intro m
  induction m with
  | nil => rfl
  | cons kv rest ih =>
      obtain ⟨k2, v⟩ := kv
      by_cases h : k2 = k <;> simp [alUpdate, h, ih]

theorem alFind_eq_none_iff {β : Type} (k : String) (m : List (String × β)) :
    alFind k m = none ↔ k ∉ m.map Prod.fst := by
  induction m with
  | nil => simp [alFind]
  | cons kv rest ih =>
      obtain ⟨k2, v⟩ := kv
      by_cases h : k2 = k
      · subst h
        simp [alFind]
      · simp only [alFind, if_neg h, List.map_cons, List.mem_cons]
        rw [ih]
        constructor
        · intro hk hor
          rcases hor with hk2 | hm
          · exact h hk2.symm
          · exact hk hm
        · intro hk hm
          exact hk (Or.inr hm)

theorem locFold_keys_nodup (att : List AttendanceRecord) :
    ((att.foldl locStep []).map Prod.fst).Nodup := by
  suffices h : ∀ (l : List AttendanceRecord) (m : List (String × LocEntry)),
      (m.map Prod.fst).Nodup → ((l.foldl locStep m).map Prod.fst).Nodup by
    exact h att [] (by simp)
  intro l
  induction l with
  | nil => intro m hm; simpa using hm
  | cons a rest ih =>
      intro m hm
      simp only [List.foldl_cons]
      apply ih
      by_cases hp : truthyStr a.postName = true
      · cases hf : alFind (a.postName.getD "") m with
        | some e =>
            rw [locStep_found hp hf, alUpdate_map_fst]
            exact hm
        | none =>
            rw [locStep_notfound hp hf, List.map_append]
            rw [List.nodup_append]
            refine ⟨hm, by simp, ?_⟩
            intro x hx hx2
            simp at hx2
            subst hx2
            exact (alFind_eq_none_iff _ m).mp hf hx
      · rw [locStep_skip hp]
        exact hm

theorem alFind_of_mem_nodup {β : Type} :
    ∀ {m : List (String × β)} {kv : String × β}, kv ∈ m →
      (m.map Prod.fst).Nodup → alFind kv.1 m = some kv.2 := by
  intro m
  induction m with
  | nil => intro kv h; simp at h
  | cons kw rest ih =>
      intro kv hmem hnod
      obtain ⟨k2, v⟩ := kw
      rw [List.map_cons, List.nodup_cons] at hnod
      rcases List.mem_cons.mp hmem with rfl | hmem2
      · simp [alFind]
      · have hk : k2 ≠ kv.1 := by
          intro he
          exact hnod.1 (he ▸ List.mem_map.mpr ⟨kv, hmem2, rfl⟩)
        rw [alFind, if_neg hk]
        exact ih hmem2 hnod.2

/-- C7: in every location profile, total counts every row carrying
that post name; covered, onTime and the duty-hours sum accumulate only
over rows that also carry a truthy guard name; punctualityRate is
round(100 * onTime / covered) when covered is positive and 0 otherwise;
and the two-row example (one On-time covered row, one post-only row)
gives total 2, covered 1, onTime 1, coverageRate 50 and
punctualityRate 100. -/
theorem location_aggregation :
    (∀ (att : List AttendanceRecord) (p : LocationProfile),
        p ∈ processLocationCoverage att →
        p.total = locTotalCnt att p.location ∧
        p.covered = locCoveredCnt att p.location ∧
        p.onTime = locOnTimeCnt att p.location ∧
        p.shiftHours = locHoursSum att p.location ∧
        p.punctualityRate =
          (if 0 < p.covered then jsRound (((p.onTime : ℚ) / (p.covered : ℚ)) * 100)
           else 0))
    ∧ processLocationCoverage [attOnTimeA, attNoGuardA] = [toLocationProfile locEntryW2]
    ∧ (toLocationProfile locEntryW2).total = 2
    ∧ (toLocationProfile locEntryW2).covered = 1
    ∧ (toLocationProfile locEntryW2).onTime = 1
    ∧ (toLocationProfile locEntryW2).coverageRate = some 50
    ∧ (toLocationProfile locEntryW2).punctualityRate = 100 := by
  refine ⟨?_, rfl, rfl, rfl, rfl, ?_, ?_⟩
  · intro att p hp
    rcases mem_processLocationCoverage hp with ⟨kv, hkv, rfl⟩
    have hfind := alFind_of_mem_nodup hkv (locFold_keys_nodup att)
    obtain ⟨hloc, h1, h2, h3, h4⟩ := (locFold_char att kv.1).1 kv.2 hfind
    simp only [toLocationProfile]
    rw [hloc]
    exact ⟨h1, h2, h3, h4, trivial⟩
  · have h : (toLocationProfile locEntryW2).coverageRate =
        some (jsRound (((1 : ℕ) : ℚ) / ((2 : ℕ) : ℚ) * 100)) := rfl
    rw [h]
    norm_num [jsRound]
  · have h : (toLocationProfile locEntryW2).punctualityRate =
        jsRound (((1 : ℕ) : ℚ) / ((1 : ℕ) : ℚ) * 100) := rfl
    rw [h]
    norm_num [jsRound]

/-- Witness for C7: the characterization instantiated at one concrete
attendance row. -/
theorem location_aggregation_witness :
    (toLocationProfile locEntryW).total =
      locTotalCnt [attOnTimeA] (toLocationProfile locEntryW).location :=
  (location_aggregation.1 [attOnTimeA] (toLocationProfile locEntryW)
    (by
      have h : processLocationCoverage [attOnTimeA] = [toLocationProfile locEntryW] := rfl
      rw [h]
      exact List.mem_singleton_self _)).1

end SecurityDashboard
